import Mathlib

/-!
Verification of the coolmenu interactive filter-and-select engine
(`src/coolmenu/coolmenu.py`).

Strings are modelled as `List Char`; Python's `str.lower` is modelled as
character-wise `Char.toLower` (length-preserving, case mapping on letters).
The menu state machine (`CoolMenu`) is modelled as a record of its mutable
fields, with each key event becoming a pure state-transition function.
The terminal height read by `visible_rows` at each event is passed as an
explicit `rows` argument on move events.
-/

/-- Strings of the Python program, as lists of characters. -/
abbrev Str := List Char

/-- Character-wise lowercasing, modelling Python `str.lower()`. -/
def lower (s : Str) : Str := s.map Char.toLower

/-- Whether `q` occurs at the very start of `s` (used to model Python `in`). -/
def startsWith : Str → Str → Bool
  | [], _ => true
  | _ :: _, [] => false
  | q :: qs, c :: cs => q = c && startsWith qs cs

/-- Python substring containment `q in s`: `q` occurs contiguously in `s`. -/
def containsSub (q : Str) : Str → Bool
  | [] => q.isEmpty
  | c :: rest => startsWith q (c :: rest) || containsSub q rest

/-- Inner `while` loop of `fuzzy_score`: scan `text` forward for `pc`;
on a hit return the rest of the text after the match, else `none`. -/
def scanChar (pc : Char) : List Char → Option (List Char)
  | [] => none
  | c :: rest => if c = pc then some rest else scanChar pc rest

/-- Outer `for pc in pattern` loop of `fuzzy_score`, threading the score;
`tlen` is the length of the (lowered) text, used for the final penalty.
Returns `-1` as soon as a pattern character is not found. -/
def fuzzy_loop : List Char → List Char → Int → Nat → Int
  | [], _, score, tlen => score - (tlen / 4 : Nat)
  | pc :: ps, text, score, tlen =>
    match scanChar pc text with
    | none => -1
    | some rest => fuzzy_loop ps rest (score + 10) tlen

/-- Embedding of `fuzzy_score(pattern, text)`: lowercase both, greedily match
pattern characters left to right, `+10` per match, minus `len(text) // 4`
on success, `-1` on failure. -/
def fuzzy_score (pattern text : Str) : Int :=
  let p := lower pattern
  let t := lower text
  fuzzy_loop p t 0 t.length

/-- Embedding of `CoolMenu.visible_rows` for a reported terminal height
`rows`: `max(1, rows - 6)`. -/
def visible_rows (rows : Int) : Int := max 1 (rows - 6)

/-- Mutable fields of the `CoolMenu` object. -/
structure MenuState where
  scroll : Nat
  items : List Str
  query : Str
  filtered : List Str
  selected : Nat
  deriving DecidableEq, Repr

/-- Embedding of `CoolMenu.update_filter`: recompute `filtered` from the
lowered query (substring containment, full list on empty query) and reset
`selected` to 0. `scroll` is not touched. -/
def update_filter (s : MenuState) : MenuState :=
  let q := lower s.query
  { s with
    filtered :=
      if q.isEmpty then s.items
      else s.items.filter (fun it => containsSub q (lower it)),
    selected := 0 }

/-- Embedding of `CoolMenu.move(delta)`: no-op on an empty filtered list,
else clamp `selected + delta` into `[0, len(filtered) - 1]` and re-scroll
so the selection lies in the window of `visible_rows rows` lines. -/
def move (rows delta : Int) (s : MenuState) : MenuState :=
  if s.filtered.isEmpty then s
  else
    let selected : Nat :=
      (max 0 (min ((s.selected : Int) + delta) ((s.filtered.length : Int) - 1))).toNat
    let visible : Nat := (visible_rows rows).toNat
    let scroll : Nat :=
      if selected < s.scroll then selected
      else if selected ≥ s.scroll + visible then selected - visible + 1
      else s.scroll
    { s with selected := selected, scroll := scroll }

/-- Embedding of `CoolMenu.launch_selected`: `none` (no exit) on an empty
filtered list, else the app exits with the candidate at index `selected`. -/
def launch_selected (s : MenuState) : Option Str :=
  if s.filtered.isEmpty then none
  else some (s.filtered.getD s.selected [])

/-- Input events delivered by the key bindings: a printable character,
backspace/delete, Ctrl-u clear, an arrow/Ctrl-jk move (carrying the terminal
height `rows` read during the event), Enter, and Escape/Ctrl-c. -/
inductive Ev where
  | char (c : Char)
  | backspace
  | clear
  | move (rows delta : Int)
  | confirm
  | cancel
  deriving DecidableEq, Repr

/-- One key event applied to the menu state, following `CoolMenu.bind_keys`.
`confirm` and `cancel` exit the application and leave the fields unchanged. -/
def step (e : Ev) (s : MenuState) : MenuState :=
  match e with
  | .char c => update_filter { s with query := s.query ++ [c] }
  | .backspace => update_filter { s with query := s.query.dropLast }
  | .clear => update_filter { s with query := [] }
  | .move rows delta => move rows delta s
  | .confirm => s
  | .cancel => s

/-- Embedding of `CoolMenu.__init__` on a candidate list: all fields are
initialised and then `update_filter` runs once. -/
def init (items : List Str) : MenuState :=
  update_filter
    { scroll := 0, items := items, query := [], filtered := items, selected := 0 }

/-- States reachable from some initial candidate list by any sequence of
input events. -/
inductive Reachable : MenuState → Prop where
  | init (items : List Str) : Reachable (init items)
  | step (e : Ev) (s : MenuState) : Reachable s → Reachable (step e s)

/-- Concrete two-item candidate list used in counterexample states. -/
def cexItems : List Str := [['a'], ['b']]

/-- State after one downward move with terminal height 7 (viewport 1):
`selected = 1`, `scroll = 1`. -/
def cexS1 : MenuState := step (.move 7 1) (init cexItems)

/-- State after then typing the character `a`: the filter narrows to `["a"]`
and `selected` is reset to 0 while `scroll` stays 1. -/
def cexS2 : MenuState := step (.char 'a') cexS1

/-! ### Helper lemmas -/

theorem containsSub_nil_left : ∀ t : Str, containsSub [] t = true
  | [] => rfl
  | c :: rest => by simp [containsSub, startsWith, containsSub_nil_left rest]

theorem update_filter_selected (s : MenuState) : (update_filter s).selected = 0 := rfl

theorem update_filter_scroll (s : MenuState) : (update_filter s).scroll = s.scroll := rfl

theorem update_filter_filtered (s : MenuState) :
    (update_filter s).filtered =
      s.items.filter (fun it => containsSub (lower s.query) (lower it)) := by
  unfold update_filter
  by_cases h : (lower s.query).isEmpty
  · rw [List.isEmpty_iff] at h
    simp only [h, List.isEmpty_nil, if_pos]
    exact (List.filter_eq_self.mpr (fun a _ => containsSub_nil_left _)).symm
  · simp only [h, if_neg, Bool.false_eq_true, not_false_iff]

theorem move_query (rows delta : Int) (s : MenuState) :
    (move rows delta s).query = s.query := by
  by_cases h : s.filtered.isEmpty <;> simp [move, h]

theorem move_filtered (rows delta : Int) (s : MenuState) :
    (move rows delta s).filtered = s.filtered := by
  by_cases h : s.filtered.isEmpty <;> simp [move, h]

theorem move_items (rows delta : Int) (s : MenuState) :
    (move rows delta s).items = s.items := by
  by_cases h : s.filtered.isEmpty <;> simp [move, h]

theorem one_le_visible_toNat (rows : Int) : 1 ≤ (visible_rows rows).toNat := by
  unfold visible_rows; omega

theorem move_selected_eq (rows delta : Int) (s : MenuState) (h : s.filtered ≠ []) :
    ((move rows delta s).selected : Int)
      = max 0 (min ((s.selected : Int) + delta) ((s.filtered.length : Int) - 1)) := by
  have hne : s.filtered.isEmpty = false := by simpa [List.isEmpty_iff] using h
  simp only [move, hne, Bool.false_eq_true, if_false]
  exact Int.toNat_of_nonneg (le_max_left 0 _)

theorem move_selected_lt (rows delta : Int) (s : MenuState) (h : s.filtered ≠ []) :
    (move rows delta s).selected < s.filtered.length := by
  have hlen : 0 < s.filtered.length := List.length_pos.mpr h
  have he := move_selected_eq rows delta s h
  omega

theorem selected_lt_update (s : MenuState) (h : (update_filter s).filtered ≠ []) :
    (update_filter s).selected < (update_filter s).filtered.length := by
  rw [update_filter_selected]
  exact List.length_pos.mpr h

theorem selected_lt_of_reachable {s : MenuState} (hr : Reachable s)
    (h : s.filtered ≠ []) : s.selected < s.filtered.length := by
  induction hr with
  | init items => exact selected_lt_update _ h
  | step e t ht ih =>
    cases e with
    | char c => exact selected_lt_update _ h
    | backspace => exact selected_lt_update _ h
    | clear => exact selected_lt_update _ h
    | move rows delta =>
      have hf : (move rows delta t).filtered = t.filtered := move_filtered rows delta t
      have ht' : t.filtered ≠ [] := by
        simpa [step, hf] using h
      have := move_selected_lt rows delta t ht'
      simpa [step, hf] using this
    | confirm => exact ih h
    | cancel => exact ih h

theorem move_restores_inv (rows delta : Int) (s : MenuState) (h : s.filtered ≠ []) :
    (move rows delta s).scroll ≤ (move rows delta s).selected ∧
    (move rows delta s).selected < (move rows delta s).scroll + (visible_rows rows).toNat := by
  have hv := one_le_visible_toNat rows
  have hne : s.filtered.isEmpty = false := by simpa [List.isEmpty_iff] using h
  simp only [move, hne, Bool.false_eq_true, if_false]
  split_ifs <;> constructor <;> omega

theorem startsWith_iff : ∀ q s : Str, startsWith q s = true ↔ ∃ v, s = q ++ v
  | [], s => by simp [startsWith]
  | q :: qs, [] => by simp [startsWith]
  | q :: qs, c :: cs => by
    simp only [startsWith, Bool.and_eq_true, decide_eq_true_eq, startsWith_iff qs cs,
      List.cons_append, List.cons.injEq]
    constructor
    · rintro ⟨rfl, v, rfl⟩
      exact ⟨v, rfl, rfl⟩
    · rintro ⟨v, rfl, rfl⟩
      exact ⟨rfl, v, rfl⟩

theorem containsSub_iff : ∀ q s : Str, containsSub q s = true ↔ ∃ u v, s = u ++ q ++ v
  | q, [] => by
    simp only [containsSub, List.isEmpty_iff]
    constructor
    · rintro rfl
      exact ⟨[], [], rfl⟩
    · rintro ⟨u, v, hv⟩
      rw [List.append_assoc] at hv
      rcases List.append_eq_nil.mp hv.symm with ⟨rfl, h2⟩
      exact (List.append_eq_nil.mp h2).1
  | q, c :: rest => by
    simp only [containsSub, Bool.or_eq_true, startsWith_iff, containsSub_iff q rest]
    constructor
    · rintro (⟨v, hv⟩ | ⟨u, v, hv⟩)
      · exact ⟨[], v, by simp [hv]⟩
      · exact ⟨c :: u, v, by simp [hv]⟩
    · rintro ⟨u, v, hv⟩
      cases u with
      | nil => exact Or.inl ⟨v, by simpa using hv⟩
      | cons x u' =>
        rw [List.cons_append, List.cons_append] at hv
        injection hv with h1 h2
        exact Or.inr ⟨u', v, by simpa using h2⟩

/-! ### Fuzzy scorer lemmas -/

theorem scanChar_none_not_mem {pc : Char} :
    ∀ {t : List Char}, scanChar pc t = none → pc ∉ t
  | [], _ => by simp
  | c :: rest, h => by
    by_cases hc : c = pc
    · simp [scanChar, hc] at h
    · simp only [scanChar, hc, if_false, Bool.false_eq_true] at h
      simp only [List.mem_cons, not_or]
      exact ⟨fun hx => hc (hx ▸ rfl), scanChar_none_not_mem h⟩

theorem sublist_scanChar {pc : Char} {ps : List Char} :
    ∀ {t : List Char}, List.Sublist (pc :: ps) t →
      ∃ rest, scanChar pc t = some rest ∧ List.Sublist ps rest
  | [], h => by simp at h
  | c :: t', h => by
    by_cases hc : c = pc
    · subst hc
      refine ⟨t', by simp [scanChar], ?_⟩
      cases h with
      | cons _ h' => exact (List.sublist_cons_self _ _).trans h'
      | cons₂ _ h' => exact h'
    · cases h with
      | cons _ h' =>
        obtain ⟨rest, he, hs⟩ := sublist_scanChar h'
        exact ⟨rest, by simp [scanChar, hc, he], hs⟩
      | cons₂ _ h' => exact absurd rfl hc

theorem scanChar_some_sublist {pc : Char} :
    ∀ {t rest : List Char}, scanChar pc t = some rest →
      ∀ ps : List Char, List.Sublist ps rest → List.Sublist (pc :: ps) t
  | [], rest, h => by simp [scanChar] at h
  | c :: t', rest, h => by
    intro ps hps
    by_cases hc : c = pc
    · subst hc
      rw [scanChar, if_pos rfl] at h
      injection h with h
      subst h
      exact hps.cons₂ c
    · simp only [scanChar, hc, if_false, Bool.false_eq_true] at h
      exact (scanChar_some_sublist h ps hps).cons c

theorem fuzzy_loop_success :
    ∀ (ps : List Char) {t : List Char} (score : Int) (tlen : Nat), List.Sublist ps t →
      fuzzy_loop ps t score tlen = score + 10 * ps.length - (tlen / 4 : Nat)
  | [], t, score, tlen, _ => by simp [fuzzy_loop]
  | pc :: ps, t, score, tlen, h => by
    obtain ⟨rest, he, hs⟩ := sublist_scanChar h
    simp only [fuzzy_loop, he]
    rw [fuzzy_loop_success ps (score + 10) tlen hs]
    push_cast [List.length_cons]
    ring

theorem fuzzy_loop_fail :
    ∀ (ps : List Char) {t : List Char} (score : Int) (tlen : Nat), ¬ List.Sublist ps t →
      fuzzy_loop ps t score tlen = -1
  | [], t, score, tlen, h => absurd (List.nil_sublist t) h
  | pc :: ps, t, score, tlen, h => by
    cases he : scanChar pc t with
    | none => simp only [fuzzy_loop, he]
    | some rest =>
      simp only [fuzzy_loop, he]
      refine fuzzy_loop_fail ps (score + 10) tlen (fun hs => h ?_)
      exact scanChar_some_sublist he ps hs

/-! ### Claim theorems -/

/-- Claim C1, counterexample: in the reachable state `cexS1` (one downward
move with a one-line viewport, `scroll = 1`), typing the printable character
`a` leaves `ScrollOffset` at 1 instead of resetting it to 0. -/
theorem c1_cex_edit_keeps_scroll :
    Reachable cexS1 ∧ cexS1.scroll = 1 ∧ (step (.char 'a') cexS1).scroll = 1 := by
  refine ⟨Reachable.step _ _ (Reachable.init cexItems), by decide, by decide⟩

/-- Claim C1 (amended): every edit event (printable character, backspace,
clear) recomputes the filtered view from the new query and resets Selection
to 0 regardless of its prior value, but leaves ScrollOffset unchanged
(it is not reset to 0). -/
theorem c1_edit_resets_selection (s : MenuState) (c : Char) :
    ((step (.char c) s).selected = 0 ∧ (step (.char c) s).scroll = s.scroll ∧
      (step (.char c) s).filtered
        = s.items.filter (fun it => containsSub (lower (s.query ++ [c])) (lower it))) ∧
    ((step .backspace s).selected = 0 ∧ (step .backspace s).scroll = s.scroll ∧
      (step .backspace s).filtered
        = s.items.filter (fun it => containsSub (lower s.query.dropLast) (lower it))) ∧
    ((step .clear s).selected = 0 ∧ (step .clear s).scroll = s.scroll ∧
      (step .clear s).filtered = s.items) := by
  refine ⟨⟨rfl, rfl, ?_⟩, ⟨rfl, rfl, ?_⟩, ⟨rfl, rfl, ?_⟩⟩
  · exact update_filter_filtered _
  · exact update_filter_filtered _
  · rfl

/-- Claim C2, counterexample: the state `cexS2`, reached by one downward move
(viewport height 1) followed by typing `a`, violates the scroll invariant:
`ScrollOffset = 1 > 0 = Selection`. -/
theorem c2_cex_viewport_invariant_fails :
    Reachable cexS2 ∧ ¬ (cexS2.scroll ≤ cexS2.selected) := by
  refine ⟨Reachable.step _ _ (Reachable.step _ _ (Reachable.init cexItems)), by decide⟩

/-- Claim C2 (amended): the scroll invariant
`ScrollOffset ≤ Selection < ScrollOffset + ViewportHeight` (ScrollOffset ≥ 0
holds as it is a natural number) is re-established by every Move transition
on a non-empty filtered view; it does not hold after arbitrary event
sequences, because edit events reset Selection but not ScrollOffset. -/
theorem c2_move_restores_viewport_invariant (rows delta : Int) (s : MenuState)
    (h : s.filtered ≠ []) :
    (move rows delta s).scroll ≤ (move rows delta s).selected ∧
    (move rows delta s).selected
      < (move rows delta s).scroll + (visible_rows rows).toNat :=
  move_restores_inv rows delta s h

/-- Claim C2 witness: the first downward move from the initial two-item state
satisfies the re-established invariant. -/
theorem c2_move_restores_viewport_invariant_witness :
    (init cexItems).filtered ≠ [] ∧
    ((move 7 1 (init cexItems)).scroll ≤ (move 7 1 (init cexItems)).selected ∧
      (move 7 1 (init cexItems)).selected
        < (move 7 1 (init cexItems)).scroll + (visible_rows 7).toNat) :=
  ⟨by decide, c2_move_restores_viewport_invariant 7 1 _ (by decide)⟩

/-- Claim C3: `fuzzy_score` lowercases both strings; if the lowered pattern is
matched in order at strictly advancing positions of the lowered text (i.e. it
is a subsequence), the result is exactly `10 * len(P) - len(T) / 4`, otherwise
it is `-1`; in particular `fuzzy_score "gt" "git" = 20` and
`fuzzy_score "xyz" "abc" = -1`. -/
theorem c3_fuzzy_score_spec :
    (∀ p t : Str,
      (List.Sublist (lower p) (lower t) →
        fuzzy_score p t = 10 * (p.length : Int) - ((t.length / 4 : Nat) : Int)) ∧
      (¬ List.Sublist (lower p) (lower t) → fuzzy_score p t = -1)) ∧
    fuzzy_score ['g', 't'] ['g', 'i', 't'] = 20 ∧
    fuzzy_score ['x', 'y', 'z'] ['a', 'b', 'c'] = -1 := by
  refine ⟨fun p t => ⟨fun h => ?_, fun h => ?_⟩, by decide, by decide⟩
  · show fuzzy_loop (lower p) (lower t) 0 (lower t).length
      = 10 * (p.length : Int) - ((t.length / 4 : Nat) : Int)
    rw [fuzzy_loop_success (lower p) 0 (lower t).length h]
    simp only [lower, List.length_map]
    omega
  · show fuzzy_loop (lower p) (lower t) 0 (lower t).length = -1
    exact fuzzy_loop_fail (lower p) 0 (lower t).length h

/-- Claim C3 witness: the success branch applied at pattern `gt`, text `git`. -/
theorem c3_fuzzy_score_spec_witness :
    List.Sublist (lower ['g', 't']) (lower ['g', 'i', 't']) ∧
    fuzzy_score ['g', 't'] ['g', 'i', 't']
      = 10 * ((['g', 't'] : Str).length : Int)
        - (((['g', 'i', 't'] : Str).length / 4 : Nat) : Int) := by
  have h : List.Sublist (lower ['g', 't']) (lower ['g', 'i', 't']) := by decide
  exact ⟨h, (c3_fuzzy_score_spec.1 _ _).1 h⟩

/-- Claim C4: after an edit the filtered view is exactly the stable filter of
the candidate list by case-insensitive contiguous-substring containment of
the query (`containsSub q t` holds iff `t = u ++ q ++ v` for some `u`, `v`),
and an empty query yields the candidate list itself, same members and
order. -/
theorem c4_filter_spec :
    (∀ q t : Str, containsSub q t = true ↔ ∃ u v, t = u ++ q ++ v) ∧
    (∀ s : MenuState, (update_filter s).filtered
        = s.items.filter (fun it => containsSub (lower s.query) (lower it))) ∧
    (∀ s : MenuState, s.query = [] → (update_filter s).filtered = s.items) := by
  refine ⟨containsSub_iff, update_filter_filtered, fun s h => ?_⟩
  rw [update_filter_filtered, h]
  exact List.filter_eq_self.mpr fun a _ => containsSub_nil_left _

/-- Claim C4 witness: the empty-query identity at the initial state over the
two-item candidate list. -/
theorem c4_filter_spec_witness :
    (init cexItems).query = [] ∧
    (update_filter (init cexItems)).filtered = (init cexItems).items :=
  ⟨by decide, c4_filter_spec.2.2 _ (by decide)⟩

/-- Claim C5: in every state reachable by any event sequence, a non-empty
filtered view has `Selection < len(FilteredView)` (with `Selection ≥ 0` as it
is a natural number), and a Move on a non-empty view sets Selection to
`clamp(Selection + delta, 0, len(FilteredView) - 1)`. -/
theorem c5_selection_bounds :
    (∀ s : MenuState, Reachable s → s.filtered ≠ [] →
      s.selected < s.filtered.length) ∧
    (∀ (rows delta : Int) (s : MenuState), s.filtered ≠ [] →
      ((move rows delta s).selected : Int)
        = max 0 (min ((s.selected : Int) + delta) ((s.filtered.length : Int) - 1))) :=
  ⟨fun _ hr h => selected_lt_of_reachable hr h, move_selected_eq⟩

/-- Claim C5 witness: the bound at the reachable initial two-item state. -/
theorem c5_selection_bounds_witness :
    (init cexItems).filtered ≠ [] ∧
    (init cexItems).selected < (init cexItems).filtered.length :=
  ⟨by decide, c5_selection_bounds.1 _ (Reachable.init _) (by decide)⟩

/-- Claim C6, code bug: the sentinel `-1` is not strictly below all success
scores. The empty pattern matches `"abcd"` (it is a subsequence of every
text), yet `fuzzy_score` returns exactly the sentinel `-1` there, and on an
eight-character text it even returns `-2 < -1`, contradicting the docstring
`-1 = no match`. -/
theorem c6_sentinel_overlaps_success_scores :
    List.Sublist (lower []) (lower ['a', 'b', 'c', 'd']) ∧
    fuzzy_score [] ['a', 'b', 'c', 'd'] = -1 ∧
    fuzzy_score [] ['a', 'b', 'c', 'd', 'e', 'f', 'g', 'h'] = -2 :=
  ⟨List.nil_sublist _, by decide, by decide⟩

/-- Claim C7: on Confirm in a reachable state, an empty filtered view gives no
result and an unchanged, still-interactive state; a non-empty view exits with
exactly the candidate at index Selection of the filtered view (the index is
in bounds). -/
theorem c7_confirm_spec (s : MenuState) (hr : Reachable s) :
    (s.filtered = [] → launch_selected s = none ∧ step .confirm s = s) ∧
    (s.filtered ≠ [] →
      s.selected < s.filtered.length ∧
      launch_selected s = some (s.filtered.getD s.selected [])) := by
  constructor
  · intro h
    refine ⟨?_, rfl⟩
    simp [launch_selected, h]
  · intro h
    refine ⟨selected_lt_of_reachable hr h, ?_⟩
    have hne : s.filtered.isEmpty = false := by simpa [List.isEmpty_iff] using h
    simp [launch_selected, hne]

/-- Claim C7 witness: Confirm at the reachable initial two-item state returns
the first candidate. -/
theorem c7_confirm_spec_witness :
    (init cexItems).filtered ≠ [] ∧
    (init cexItems).selected < (init cexItems).filtered.length ∧
    launch_selected (init cexItems)
      = some ((init cexItems).filtered.getD (init cexItems).selected []) := by
  have h := (c7_confirm_spec (init cexItems) (Reachable.init _)).2 (by decide)
  exact ⟨by decide, h.1, h.2⟩

/-- Claim C8, counterexample: in the reachable state `cexS2` (scroll left at 1
by an edit while the selection was reset to 0), `Move(0)` changes the state:
it pulls `scroll` back to the selection. -/
theorem c8_cex_move_on_scrolled_state :
    Reachable cexS2 ∧ cexS2.filtered ≠ [] ∧ step (.move 7 0) cexS2 ≠ cexS2 := by
  refine ⟨?_, by decide, by decide⟩
  exact Reachable.step _ _ (Reachable.step _ _ (Reachable.init cexItems))

/-- Claim C8 (amended): a Move with any delta on an empty filtered view leaves
the whole state unchanged, and `Move(0)` leaves the whole state unchanged
whenever the selection is in bounds and the viewport invariant
`scroll ≤ selected < scroll + viewport` already holds; when an edit has left
`ScrollOffset > Selection`, `Move(0)` instead re-scrolls and changes
ScrollOffset. -/
theorem c8_noop_moves :
    (∀ (rows delta : Int) (s : MenuState), s.filtered = [] → move rows delta s = s) ∧
    (∀ (rows : Int) (s : MenuState),
      s.selected < s.filtered.length →
      s.scroll ≤ s.selected →
      s.selected < s.scroll + (visible_rows rows).toNat →
      move rows 0 s = s) := by
  constructor
  · intro rows delta s h
    simp [move, h]
  · intro rows s h1 h2 h3
    have hne : s.filtered ≠ [] := by
      intro h
      rw [h] at h1
      simp at h1
    have hne' : s.filtered.isEmpty = false := by simpa [List.isEmpty_iff] using hne
    have hsel :
        (max 0 (min ((s.selected : Int) + 0) ((s.filtered.length : Int) - 1))).toNat
          = s.selected := by omega
    simp only [move, hne', Bool.false_eq_true, if_false, hsel]
    rw [if_neg (by omega), if_neg (by omega)]

/-- Claim C8 witness: `Move(0)` with terminal height 20 at the initial
two-item state is the identity. -/
theorem c8_noop_moves_witness :
    (init cexItems).selected < (init cexItems).filtered.length ∧
    move 20 0 (init cexItems) = init cexItems :=
  ⟨by decide, c8_noop_moves.2 20 _ (by decide) (by decide) (by decide)⟩

/-- Claim C9: the effective viewport height `max(1, rows - 6)` is at least 1
for every reported terminal height `rows`, including heights that would make
the usable row count zero or negative; this also holds for the natural-number
viewport used by the move transition. -/
theorem c9_viewport_clamped :
    ∀ rows : Int, 1 ≤ visible_rows rows ∧ 1 ≤ (visible_rows rows).toNat :=
  fun rows => ⟨le_max_left 1 _, one_le_visible_toNat rows⟩

/-- Claim C10: a Move with any delta never modifies the query, the filtered
view, or the original candidate list — only Selection and ScrollOffset may
change. -/
theorem c10_move_frame :
    ∀ (rows delta : Int) (s : MenuState),
      (move rows delta s).query = s.query ∧
      (move rows delta s).filtered = s.filtered ∧
      (move rows delta s).items = s.items :=
  fun rows delta s =>
    ⟨move_query rows delta s, move_filtered rows delta s, move_items rows delta s⟩
